import Mathlib

set_option autoImplicit false

/-!
Shallow embedding of `src/backend/wbprivate/sqlide/result_form_view.cpp`
(MySQL Workbench result form view): the field-type dispatch that maps a
column's SQL type to an input-widget variant, enum/set value-list parsing,
label formatting, the SET checklist value marshaling, and the
ResultFormView navigation / update / display operations over a weakly
referenced recordset.

Strings are modelled as Lean `String`s and C++ `std::string` operations
(find, rfind, substr, operator+) as operations on their character lists.
Machine `int`s are modelled as `Int`.
-/

namespace ResultFormView

/-! ### Basic string operations (std::string) -/

/-- Index of the first occurrence of `c` in a character list. -/
def findCharIdx (c : Char) : List Char → Option Nat
  | [] => none
  | x :: rest => if x = c then some 0 else (findCharIdx c rest).map (· + 1)

/-- `std::string::find(c)`: index of the first occurrence of `c`, `none` for npos. -/
def strFind (s : String) (c : Char) : Option Nat :=
  findCharIdx c s.data

/-- `std::string::rfind(c)`: index of the last occurrence of `c`, `none` for npos. -/
def strRfind (s : String) (c : Char) : Option Nat :=
  match findCharIdx c s.data.reverse with
  | none => none
  | some i => some (s.data.length - 1 - i)

/-- `std::string::substr(pos, len)` at the character level. -/
def strSubstr (s : String) (pos len : Nat) : String :=
  String.mk ((s.data.drop pos).take len)

/-! ### glib ASCII helpers (library functions used by `format_label`) -/

/-- `g_ascii_isalpha`: ASCII letter test. -/
def g_ascii_isalpha (c : Char) : Bool :=
  ('a' ≤ c && c ≤ 'z') || ('A' ≤ c && c ≤ 'Z')

/-- `g_ascii_toupper`: ASCII lowercase-to-uppercase conversion. -/
def g_ascii_toupper (c : Char) : Char :=
  if 'a' ≤ c && c ≤ 'z' then Char.ofNat (c.toNat - 32) else c

/-! ### `format_label` (result_form_view.cpp, lines 310-318) -/

/-- `format_label`: appends `":"` to the label, then capitalizes the first
character when it is an ASCII letter. -/
def format_label (label : String) : String :=
  let flabel := String.mk (label.data ++ [':'])
  match flabel.data with
  | [] => flabel
  | c :: rest =>
    if g_ascii_isalpha c then String.mk (g_ascii_toupper c :: rest) else flabel

/-! ### `bec::tokenize_string_list` and `parse_enum_definition` -/

/-- Modelled from the spec: `bec::tokenize_string_list` (declared in
`grt/parse_utils.h`; its implementation is not under `src/`).  Per §4.1 of
the spec the enum value list is "split on `'`-delimited tokens": each token
is a run of characters delimited by the quote character `'`, returned with
its quotes still attached (the caller strips them), and characters between
tokens — in particular commas — are separators that do not enter any token.
`tokenizeGo` carries `none` outside a quoted token and `some acc` (the
reversed accumulated characters) inside one; an unterminated token produces
nothing. -/
def tokenizeGo : List Char → Option (List Char) → List String
  | [], _ => []
  | c :: rest, none =>
    if c = '\'' then tokenizeGo rest (some []) else tokenizeGo rest none
  | c :: rest, some acc =>
    if c = '\'' then
      String.mk ('\'' :: acc.reverse ++ ['\'']) :: tokenizeGo rest none
    else
      tokenizeGo rest (some (c :: acc))

/-- Modelled from the spec: entry point of `bec::tokenize_string_list` with
quote character `'` (see `tokenizeGo`). -/
def tokenize_string_list (s : String) : List String :=
  tokenizeGo s.data none

/-- Quote stripping done by `parse_enum_definition`'s loop:
`*i = i->substr(1, i->size()-2)`. -/
def stripQuotes (t : String) : String :=
  strSubstr t 1 (t.data.length - 2)

/-- `parse_enum_definition` (result_form_view.cpp, lines 290-307): takes the
substring between the first `(` and the last `)`, tokenizes it on
`'`-delimited tokens and strips the surrounding quotes from each token;
yields `[]` when the parentheses are absent or ill-ordered. -/
def parse_enum_definition (full_type : String) : List String :=
  match strFind full_type '(', strRfind full_type ')' with
  | some b, some e =>
    if b < e then
      (tokenize_string_list (strSubstr full_type (b + 1) (e - b - 1))).map stripQuotes
    else []
  | _, _ => []

/-! ### FieldView variants

The C++ FieldView class hierarchy (StringFieldView, SelectorFieldView,
SetFieldView, TextFieldView, BlobFieldView) is modelled as an inductive
type; each constructor carries the state its C++ counterpart owns that the
dispatch decides: the label text, the selector/checklist item list, the
text box height (`set_size(-1, h)`), and for the single-line entry the
`_expands` flag and the explicit width set by `set_size(max(max_length*10,
60), -1)` when it does not expand. -/

inductive FieldView where
  | stringField (label : String) (expandsFlag : Bool) (width : Option Int)
  | selectorField (label : String) (items : List String)
  | setField (label : String) (items : List String)
  | textField (label : String) (height : Int)
  | blobField (label : String)
  deriving DecidableEq, Repr

/-- The `StringFieldView` constructor (lines 94-104): `_expands` is set when
`max_length > 64`, otherwise the entry gets explicit width
`max(max_length * 10, 60)`. -/
def StringFieldView.make (name : String) (max_length : Int) : FieldView :=
  if max_length > 64 then .stringField name true none
  else .stringField name false (some (max (max_length * 10) 60))

/-- The virtual `expands()` methods: the base class returns `false`
(inherited by Selector/Set/Blob views), `TextFieldView::expands` returns
`true`, and `StringFieldView::expands` returns the `_expands` flag. -/
def FieldView.expands : FieldView → Bool
  | .stringField _ e _ => e
  | .textField _ _ => true
  | _ => false

/-! ### `Recordset_cdbc_storage::FieldInfo` (external, consumed) -/

structure FieldInfo where
  field : String
  type : String
  display_size : Int
  schema : String
  table : String
  deriving DecidableEq, Repr

/-- `ResultFormView::FieldView::create` (lines 321-357): the field-type
dispatch.  The `display_size > 1000` case models the extra
`text->value()->set_size(-1, 200)` call on the text box created with
default height 60. -/
def FieldView.create (field : FieldInfo) (full_type : String) : FieldView :=
  if field.type = "VARCHAR" then
    if field.display_size > 40 then
      .textField (format_label field.field)
        (if field.display_size > 1000 then 200 else 60)
    else
      StringFieldView.make (format_label field.field) field.display_size
  else if field.type = "TEXT" then
    .textField (format_label field.field) 60
  else if field.type = "BLOB" then
    .blobField (format_label field.field)
  else if field.type = "ENUM" ∧ ¬full_type.isEmpty then
    .selectorField (format_label field.field) (parse_enum_definition full_type)
  else if field.type = "SET" ∧ ¬full_type.isEmpty then
    .setField (format_label field.field) (parse_enum_definition full_type)
  else
    StringFieldView.make (format_label field.field) field.display_size

/-! ### SetFieldView value marshaling (lines 159-217)

The checklist widget's per-row state is the check-box column; the rows are
created in item-list order, so the tree's row `i` holds item `i`.  The
check-box states are modelled as a `List Bool` parallel to the item list. -/

/-- Modelled from the spec: `base::split_token_list(value, ',')`
(`base/string_utilities`, not under `src/`); per §4.2/§8 the stored SET
value is read back by splitting it on commas.  Splits the character list on
`,`, keeping empty tokens; the empty string yields `[""]`. -/
def splitCommaAux : List Char → List Char → List String
  | [], acc => [String.mk acc.reverse]
  | c :: rest, acc =>
    if c = ',' then String.mk acc.reverse :: splitCommaAux rest []
    else splitCommaAux rest (c :: acc)

/-- Modelled from the spec: entry point of `base::split_token_list` with
separator `,` (see `splitCommaAux`). -/
def split_token_list (s : String) : List String :=
  splitCommaAux s.data []

namespace SetFieldView

/-- `SetFieldView::set_value` (lines 204-216): split the incoming value on
commas and check exactly the rows whose label occurs in the split list. -/
def set_value (items : List String) (value : String) : List Bool :=
  let l := split_token_list value
  items.map (fun item => l.contains item)

/-- Loop body of `SetFieldView::changed`: when row `p` is checked, append
its label to `value`, prepending `","` only when the accumulated value is
non-empty. -/
def changedStep (value : String) (p : String × Bool) : String :=
  if p.2 then (if value.isEmpty then p.1 else value ++ "," ++ p.1) else value

/-- `SetFieldView::changed` (lines 163-178): recompute the value by scanning
all rows in order and joining the checked rows' labels with commas. -/
def changed (items : List String) (checks : List Bool) : String :=
  (items.zip checks).foldl changedStep ""

end SetFieldView

/-! ### Recordset (external collaborator, consumed)

`Recordset` (sqlide) is not under `src/`; only the members this file calls
are modelled: `count()`, `edited_field_row()`, `edited_field_column()`,
`set_edited_field(row, col)` (updates the two cursor fields) and the
optional `update_edited_field` callback (presence modelled as a flag).
Calls whose effect is owned by the collaborator — `delete_node`,
`set_field`, `open_field_data_editor`, the `update_edited_field` hook and
the final `display_record()` redisplay — are recorded as events. -/

structure Recordset where
  count : Int
  edited_field_row : Int
  edited_field_column : Int
  has_update_hook : Bool
  deriving DecidableEq, Repr

inductive RsetEvent where
  | deleteNode (row : Int)
  | setEditedField (row col : Int)
  | updateEditedField
  | setField (row col : Int) (value : String)
  | openFieldDataEditor (row col : Int)
  | displayRecord
  deriving DecidableEq, Repr

/-- The `if (rset->update_edited_field) rset->update_edited_field();` calls. -/
def hookEvents (rset : Recordset) : List RsetEvent :=
  if rset.has_update_hook then [.updateEditedField] else []

/-- `ResultFormView::navigate` (lines 363-411): the weak reference is
modelled as `Option Recordset` (`none` = expired).  Returns the recordset
state after the action together with the events emitted on the
collaborators.  `delete_node`'s effect on the recordset is owned by the
recordset (post-delete row semantics are external); it is recorded as an
event. -/
def navigate (name : String) (rset? : Option Recordset) :
    Option Recordset × List RsetEvent :=
  match rset? with
  | none => (none, [])
  | some rset =>
    let row := rset.edited_field_row
    if row < 0 then (some rset, [])
    else if name = "delete" then
      (some rset, [.deleteNode row, .displayRecord])
    else if name = "back" then
      let row' := row - 1
      let row' := if row' < 0 then 0 else row'
      (some { rset with edited_field_row := row',
                        edited_field_column := rset.edited_field_column },
       [RsetEvent.setEditedField row' rset.edited_field_column] ++
         hookEvents rset ++ [RsetEvent.displayRecord])
    else if name = "first" then
      (some { rset with edited_field_row := 0,
                        edited_field_column := rset.edited_field_column },
       [RsetEvent.setEditedField 0 rset.edited_field_column] ++
         hookEvents rset ++ [RsetEvent.displayRecord])
    else if name = "next" then
      let row' := row + 1
      let row' := if row' ≥ rset.count then rset.count - 1 else row'
      (some { rset with edited_field_row := row',
                        edited_field_column := rset.edited_field_column },
       [RsetEvent.setEditedField row' rset.edited_field_column] ++
         hookEvents rset ++ [RsetEvent.displayRecord])
    else if name = "last" then
      let row' := rset.count - 1
      (some { rset with edited_field_row := row',
                        edited_field_column := rset.edited_field_column },
       [RsetEvent.setEditedField row' rset.edited_field_column] ++
         hookEvents rset ++ [RsetEvent.displayRecord])
    else
      (some rset, [RsetEvent.displayRecord])

/-- `ResultFormView::update_value` (lines 414-423): push an edited value
into the recordset at (edited row, column) when the edited row is in
range. -/
def update_value (column : Int) (value : String) (rset? : Option Recordset) :
    Option Recordset × List RsetEvent :=
  match rset? with
  | none => (none, [])
  | some rset =>
    let row := rset.edited_field_row
    if rset.count > row ∧ row ≥ 0 then
      (some rset, [.setField row column value])
    else (some rset, [])

/-- `ResultFormView::open_field_editor` (lines 426-435). -/
def open_field_editor (column : Int) (rset? : Option Recordset) :
    Option Recordset × List RsetEvent :=
  match rset? with
  | none => (none, [])
  | some rset =>
    let row := rset.edited_field_row
    if row < rset.count ∧ row ≥ 0 then
      (some rset, [.openFieldDataEditor row column])
    else (some rset, [])

/-- The toolbar/label state that `display_record` computes (lines 540-545):
the "N / total" position label and the enabled state of the four
navigation buttons.  Pushing each cell's string representation into its
FieldView widget is a pure widget effect driven by external
`get_field_repr_no_truncate` data and is not part of this state. -/
structure DisplayState where
  location_label : String
  first_enabled : Bool
  back_enabled : Bool
  next_enabled : Bool
  last_enabled : Bool
  deriving DecidableEq, Repr

/-- `ResultFormView::display_record` (lines 526-548): `none` when the weak
reference has expired (the function returns without touching anything). -/
def display_record (rset? : Option Recordset) : Option DisplayState :=
  match rset? with
  | none => none
  | some rset =>
    some { location_label :=
             toString (rset.edited_field_row + 1) ++ " / " ++ toString rset.count,
           first_enabled := rset.edited_field_row > 0,
           back_enabled := rset.edited_field_row > 0,
           next_enabled := rset.edited_field_row < rset.count - 1,
           last_enabled := rset.edited_field_row < rset.count - 1 }

/-! ### `get_full_column_type` and `init_for_resultset` -/

/-- Modelled from the spec: `bec::is_supported_mysql_version_at_least`
(`grtdb/db_helpers`, not under `src/`); per §4.3 the metadata query "is
skipped entirely on server versions below 5.5". -/
def is_supported_mysql_version_at_least (major minor wantMajor wantMinor : Int) : Bool :=
  major > wantMajor || (major = wantMajor && minor ≥ wantMinor)

/-- Outcome of the one `INFORMATION_SCHEMA.COLUMNS` query: an exception
raised by the driver, or an optional first-row string. -/
abbrev DriverOutcome := Except String (Option String)

/-- `ResultFormView::get_full_column_type` (lines 550-573).  Returns the
full column type string together with a flag recording whether the query
was issued at all.  Below server version 5.5 the query is skipped and `""`
returned; a driver exception is logged and `""` returned; a query with no
first row also yields `""`. -/
def get_full_column_type (major minor : Int) (driver : DriverOutcome) :
    String × Bool :=
  if is_supported_mysql_version_at_least major minor 5 5 then
    (match driver with
     | .ok (some s) => s
     | .ok none => ""
     | .error _ => "", true)
  else ("", false)

/-- The full-type string `init_for_resultset` passes to `FieldView::create`
for one column (lines 602-607): the metadata query result — abstracted as
the oracle `fullTypeOf` — is fetched only for ENUM/SET columns attributable
to a concrete table; otherwise the empty string is used. -/
def full_type_for (fullTypeOf : FieldInfo → String) (fi : FieldInfo) : String :=
  if (fi.type = "ENUM" ∨ fi.type = "SET") ∧ ¬fi.table.isEmpty then
    fullTypeOf fi
  else ""

/-- `ResultFormView::init_for_resultset` (lines 575-619), recordset-cursor
part and field-view construction: when the recordset has no current edited
row but at least one row, the edited field is set to row 0, column 0 (and
the update hook invoked when present) before the field views are built, one
per column via `FieldView::create`. -/
def init_for_resultset (rset? : Option Recordset)
    (field_info : List FieldInfo) (fullTypeOf : FieldInfo → String) :
    Option Recordset × List RsetEvent × List FieldView :=
  match rset? with
  | none => (none, [], [])
  | some rset =>
    let (rset', events) :=
      if rset.edited_field_row < 0 ∧ rset.count > 0 then
        ({ rset with edited_field_row := 0, edited_field_column := 0 },
         [RsetEvent.setEditedField 0 0] ++ hookEvents rset)
      else (rset, [])
    (some rset', events,
     field_info.map (fun fi => FieldView.create fi (full_type_for fullTypeOf fi)))

/-! ### Derived notions used by theorem statements -/

/-- A SQL-quoted value: `'v'`. -/
def quoteVal (v : String) : String := "'" ++ v ++ "'"

/-- Comma-joined list, written from the spec's wording ("joining the
checked items' labels with commas, in list order"); used to state the
parsing and round-trip properties. -/
def joinComma : List String → String
  | [] => ""
  | [v] => v
  | v :: vs => v ++ "," ++ joinComma vs

/-- The full SQL type literal `enum('v1','v2',...)`. -/
def enumLiteral (vs : List String) : String :=
  "enum(" ++ joinComma (vs.map quoteVal) ++ ")"

/-- The labels of the checked rows of a (label, checked) row list. -/
def checkedPairs (ps : List (String × Bool)) : List String :=
  ps.filterMap (fun p => if p.2 then some p.1 else none)

/-- The labels of the checked checklist rows, in row order. -/
def checkedLabels (items : List String) (checks : List Bool) : List String :=
  checkedPairs (items.zip checks)

/-- The tail of a comma join: `",x1,x2,..."`. -/
def tailJoin : List String → String
  | [] => ""
  | x :: xs => "," ++ x ++ tailJoin xs

end ResultFormView

namespace ResultFormView

/-! ## Helper lemmas -/

theorem strext {s t : String} (h : s.data = t.data) : s = t := by
  cases s; cases t; exact congrArg String.mk h

theorem data_mk (l : List Char) : (String.mk l).data = l := rfl

theorem ne_empty_iff_data {s : String} : s ≠ "" ↔ s.data ≠ [] := by
  cases s with
  | mk d =>
    constructor
    · intro h hd
      exact h (congrArg String.mk hd)
    · intro h hd
      exact h (congrArg String.data hd)

theorem not_isEmpty_of_ne {s : String} (h : s ≠ "") : ¬s.isEmpty := by
  simpa [String.isEmpty_iff] using h

/-! Lemmas about the quoted-token scanner and the enum literal. -/

theorem joinComma_cons₂ (a b : String) (l : List String) :
    joinComma (a :: b :: l) = a ++ "," ++ joinComma (b :: l) := rfl

theorem quoteVal_data (v : String) :
    (quoteVal v).data = '\'' :: v.data ++ ['\''] := by
  simp [quoteVal, String.data_append]

theorem tokenizeGo_skip (l rest : List Char) (h : '\'' ∉ l) :
    tokenizeGo (l ++ rest) none = tokenizeGo rest none := by
  induction l with
  | nil => rfl
  | cons c l ih =>
    have hc : ¬c = '\'' := fun hc => h (hc ▸ List.mem_cons_self c l)
    have hl : '\'' ∉ l := fun hm => h (List.mem_cons_of_mem c hm)
    simp only [List.cons_append, tokenizeGo, if_neg hc]
    exact ih hl

theorem tokenizeGo_quoted (v : List Char) (acc rest : List Char) (h : '\'' ∉ v) :
    tokenizeGo (v ++ '\'' :: rest) (some acc) =
      String.mk ('\'' :: (acc.reverse ++ v) ++ ['\'']) :: tokenizeGo rest none := by
  induction v generalizing acc with
  | nil => simp [tokenizeGo]
  | cons c v ih =>
    have hc : ¬c = '\'' := fun hc => h (hc ▸ List.mem_cons_self c v)
    have hv : '\'' ∉ v := fun hm => h (List.mem_cons_of_mem c hm)
    have hstep : tokenizeGo ((c :: v) ++ '\'' :: rest) (some acc) =
        tokenizeGo (v ++ '\'' :: rest) (some (c :: acc)) := by
      simp [tokenizeGo, hc]
    have hl : ('\'' :: ((c :: acc).reverse ++ v)) ++ ['\''] =
        ('\'' :: (acc.reverse ++ c :: v)) ++ ['\''] := by simp
    rw [hstep, ih (c :: acc) hv, hl]

theorem tokenizeGo_quoteVal_append (v : String) (rest : List Char)
    (hv : '\'' ∉ v.data) :
    tokenizeGo ((quoteVal v).data ++ rest) none =
      quoteVal v :: tokenizeGo rest none := by
  rw [quoteVal_data]
  rw [show ('\'' :: v.data ++ ['\'']) ++ rest = '\'' :: (v.data ++ '\'' :: rest)
    from by simp]
  rw [show tokenizeGo ('\'' :: (v.data ++ '\'' :: rest)) none =
        tokenizeGo (v.data ++ '\'' :: rest) (some []) from by simp [tokenizeGo]]
  rw [tokenizeGo_quoted v.data [] rest hv]
  congr 1

theorem tokenizeGo_joinComma (vs : List String)
    (hq : ∀ v ∈ vs, '\'' ∉ v.data) :
    tokenizeGo (joinComma (vs.map quoteVal)).data none = vs.map quoteVal := by
  induction vs with
  | nil => rfl
  | cons v vs ih =>
    have hv : '\'' ∉ v.data := hq v (List.mem_cons_self v vs)
    have hrest : ∀ w ∈ vs, '\'' ∉ w.data :=
      fun w hw => hq w (List.mem_cons_of_mem v hw)
    cases vs with
    | nil =>
      show tokenizeGo (quoteVal v).data none = [quoteVal v]
      have h := tokenizeGo_quoteVal_append v [] hv
      simpa using h
    | cons w vs' =>
      rw [List.map_cons]
      rw [show (joinComma (quoteVal v :: (w :: vs').map quoteVal)).data =
            (quoteVal v).data ++ ',' :: (joinComma ((w :: vs').map quoteVal)).data
        from by simp [List.map_cons, joinComma_cons₂, String.data_append]]
      rw [tokenizeGo_quoteVal_append v _ hv]
      congr 1
      rw [show tokenizeGo (',' :: (joinComma ((w :: vs').map quoteVal)).data) none =
            tokenizeGo (joinComma ((w :: vs').map quoteVal)).data none
        from by simp [tokenizeGo]]
      exact ih hrest

theorem enumLiteral_data (vs : List String) :
    (enumLiteral vs).data =
      'e' :: 'n' :: 'u' :: 'm' :: '(' ::
        ((joinComma (vs.map quoteVal)).data ++ [')']) := by
  have h5 : ("enum(" : String).data = ['e', 'n', 'u', 'm', '('] := rfl
  simp [enumLiteral, String.data_append, h5]

theorem strFind_enumLiteral (vs : List String) :
    strFind (enumLiteral vs) '(' = some 4 := by
  rw [strFind, enumLiteral_data]
  simp [findCharIdx]

theorem strRfind_enumLiteral (vs : List String) :
    strRfind (enumLiteral vs) ')' = some ((enumLiteral vs).data.length - 1) := by
  unfold strRfind
  have hrev : (enumLiteral vs).data.reverse =
      ')' :: ((joinComma (vs.map quoteVal)).data.reverse ++
        ['(', 'm', 'u', 'n', 'e']) := by
    rw [enumLiteral_data]
    simp
  rw [hrev]
  simp [findCharIdx]

theorem parse_enum_definition_eq (s : String) (b e : Nat)
    (hb : strFind s '(' = some b) (he : strRfind s ')' = some e) (hlt : b < e) :
    parse_enum_definition s =
      (tokenize_string_list (strSubstr s (b + 1) (e - b - 1))).map stripQuotes := by
  unfold parse_enum_definition
  rw [hb, he]
  show (if b < e then
      (tokenize_string_list (strSubstr s (b + 1) (e - b - 1))).map stripQuotes
    else []) = _
  rw [if_pos hlt]

theorem parse_enum_definition_eq_nil (s : String)
    (h : strFind s '(' = none ∨ strRfind s ')' = none ∨
      ∀ b e, strFind s '(' = some b → strRfind s ')' = some e → e ≤ b) :
    parse_enum_definition s = [] := by
  unfold parse_enum_definition
  rcases hb : strFind s '(' with _ | b
  · rfl
  · rcases he : strRfind s ')' with _ | e
    · rfl
    · have hle : e ≤ b := by
        rcases h with h | h | h
        · rw [h] at hb; cases hb
        · rw [h] at he; cases he
        · exact h b e hb he
      show (if b < e then
          (tokenize_string_list (strSubstr s (b + 1) (e - b - 1))).map stripQuotes
        else []) = []
      rw [if_neg (by omega)]

theorem stripQuotes_quoteVal (v : String) : stripQuotes (quoteVal v) = v := by
  apply strext
  rw [stripQuotes, strSubstr, data_mk, quoteVal_data]
  have hlen : ('\'' :: v.data ++ ['\'']).length - 2 = v.data.length := by
    simp
  rw [hlen, List.cons_append, List.drop_one, List.tail_cons]
  exact List.take_left v.data ['\'']

theorem parse_enumLiteral (vs : List String)
    (hq : ∀ v ∈ vs, '\'' ∉ v.data) :
    parse_enum_definition (enumLiteral vs) = vs := by
  have hlen : (enumLiteral vs).data.length =
      (joinComma (vs.map quoteVal)).data.length + 6 := by
    rw [enumLiteral_data]
    simp
  have hlt : 4 < (enumLiteral vs).data.length - 1 := by omega
  rw [parse_enum_definition_eq (enumLiteral vs) 4 ((enumLiteral vs).data.length - 1)
    (strFind_enumLiteral vs) (strRfind_enumLiteral vs) hlt]
  have hsub : strSubstr (enumLiteral vs) (4 + 1)
      ((enumLiteral vs).data.length - 1 - 4 - 1) =
      joinComma (vs.map quoteVal) := by
    apply strext
    rw [strSubstr, data_mk, enumLiteral_data]
    rw [show ('e' :: 'n' :: 'u' :: 'm' :: '(' ::
          ((joinComma (vs.map quoteVal)).data ++ [')'])).length - 1 - 4 - 1 =
        (joinComma (vs.map quoteVal)).data.length from by simp]
    rw [show (4 + 1 : Nat) = 5 from rfl]
    rw [show List.drop 5
        ('e' :: 'n' :: 'u' :: 'm' :: '(' ::
          ((joinComma (vs.map quoteVal)).data ++ [')'])) =
        (joinComma (vs.map quoteVal)).data ++ [')'] from rfl]
    exact List.take_left _ _
  rw [hsub]
  unfold tokenize_string_list
  rw [tokenizeGo_joinComma vs hq, List.map_map]
  rw [show stripQuotes ∘ quoteVal = fun v => stripQuotes (quoteVal v) from rfl]
  rw [List.map_congr_left (fun v _ => stripQuotes_quoteVal v)]
  simp

/-! Lemmas about the comma splitter and the checklist fold. -/

theorem splitCommaAux_no_comma (l : List Char) :
    ∀ acc, ',' ∉ l → splitCommaAux l acc = [String.mk (acc.reverse ++ l)] := by
  induction l with
  | nil =>
    intro acc _
    simp [splitCommaAux]
  | cons c l ih =>
    intro acc h
    have hc : ¬c = ',' := fun hc => h (hc ▸ List.mem_cons_self c l)
    have hl : ',' ∉ l := fun hm => h (List.mem_cons_of_mem c hm)
    rw [show splitCommaAux (c :: l) acc = splitCommaAux l (c :: acc) from by
      simp [splitCommaAux, hc]]
    rw [ih (c :: acc) hl]
    rw [show (c :: acc).reverse ++ l = acc.reverse ++ c :: l from by simp]

theorem splitCommaAux_append (l₁ : List Char) :
    ∀ acc l₂, ',' ∉ l₁ →
      splitCommaAux (l₁ ++ ',' :: l₂) acc =
        String.mk (acc.reverse ++ l₁) :: splitCommaAux l₂ [] := by
  induction l₁ with
  | nil =>
    intro acc l₂ _
    simp [splitCommaAux]
  | cons c l ih =>
    intro acc l₂ h
    have hc : ¬c = ',' := fun hc => h (hc ▸ List.mem_cons_self c l)
    have hl : ',' ∉ l := fun hm => h (List.mem_cons_of_mem c hm)
    rw [List.cons_append]
    rw [show splitCommaAux (c :: (l ++ ',' :: l₂)) acc =
          splitCommaAux (l ++ ',' :: l₂) (c :: acc) from by
      simp [splitCommaAux, hc]]
    rw [ih (c :: acc) l₂ hl]
    rw [show (c :: acc).reverse ++ l = acc.reverse ++ c :: l from by simp]

theorem split_joinComma (ls : List String) (hne : ls ≠ [])
    (hc : ∀ z ∈ ls, ',' ∉ z.data) :
    split_token_list (joinComma ls) = ls := by
  induction ls with
  | nil => cases hne rfl
  | cons a ls ih =>
    have ha : ',' ∉ a.data := hc a (List.mem_cons_self a ls)
    cases ls with
    | nil =>
      show split_token_list (joinComma [a]) = [a]
      unfold split_token_list
      rw [show joinComma [a] = a from rfl]
      rw [splitCommaAux_no_comma a.data [] ha]
      simp
    | cons b ls' =>
      rw [joinComma_cons₂]
      unfold split_token_list
      rw [show (a ++ "," ++ joinComma (b :: ls')).data =
            a.data ++ ',' :: (joinComma (b :: ls')).data from by
        simp [String.data_append]]
      rw [splitCommaAux_append a.data [] _ ha]
      rw [show String.mk (List.reverse [] ++ a.data) = a from by simp]
      congr 1
      exact ih (by simp) (fun z hz => hc z (List.mem_cons_of_mem a hz))

theorem changedStep_foldl (ps : List (String × Bool)) :
    ∀ v : String, v ≠ "" →
      ps.foldl SetFieldView.changedStep v = v ++ tailJoin (checkedPairs ps) := by
  induction ps with
  | nil =>
    intro v _
    simp [checkedPairs, tailJoin]
  | cons p ps ih =>
    intro v hv
    rw [List.foldl_cons]
    cases hp : p.2 with
    | false =>
      rw [show SetFieldView.changedStep v p = v from by simp [SetFieldView.changedStep, hp]]
      rw [ih v hv]
      rw [show checkedPairs (p :: ps) = checkedPairs ps from by
        simp [checkedPairs, List.filterMap_cons, hp]]
    | true =>
      have hvne : ¬v.isEmpty := not_isEmpty_of_ne hv
      rw [show SetFieldView.changedStep v p = v ++ "," ++ p.1 from by
        simp [SetFieldView.changedStep, hp, hvne]]
      have hne2 : v ++ "," ++ p.1 ≠ "" := by
        rw [ne_empty_iff_data]
        simp [String.data_append]
      rw [ih _ hne2]
      rw [show checkedPairs (p :: ps) = p.1 :: checkedPairs ps from by
        simp [checkedPairs, List.filterMap_cons, hp]]
      rw [show tailJoin (p.1 :: checkedPairs ps) =
            "," ++ p.1 ++ tailJoin (checkedPairs ps) from rfl]
      simp [String.append_assoc]

theorem joinComma_eq_tailJoin (x : String) (xs : List String) :
    joinComma (x :: xs) = x ++ tailJoin xs := by
  induction xs generalizing x with
  | nil => simp [joinComma, tailJoin]
  | cons y ys ih =>
    rw [joinComma_cons₂, ih y]
    rw [show tailJoin (y :: ys) = "," ++ y ++ tailJoin ys from rfl]
    simp [String.append_assoc]

theorem changed_eq_joinComma (ps : List (String × Bool))
    (h : ∀ z ∈ checkedPairs ps, z ≠ "") :
    ps.foldl SetFieldView.changedStep "" = joinComma (checkedPairs ps) := by
  induction ps with
  | nil => rfl
  | cons p ps ih =>
    rw [List.foldl_cons]
    cases hp : p.2 with
    | false =>
      rw [show SetFieldView.changedStep "" p = "" from by simp [SetFieldView.changedStep, hp]]
      rw [show checkedPairs (p :: ps) = checkedPairs ps from by
        simp [checkedPairs, List.filterMap_cons, hp]] at h ⊢
      exact ih h
    | true =>
      have hcp : checkedPairs (p :: ps) = p.1 :: checkedPairs ps := by
        simp [checkedPairs, List.filterMap_cons, hp]
      have hp1 : p.1 ≠ "" := h p.1 (hcp ▸ List.mem_cons_self _ _)
      rw [show SetFieldView.changedStep "" p = p.1 from by
        simp [SetFieldView.changedStep, hp, show ("" : String).isEmpty = true from rfl]]
      rw [changedStep_foldl ps p.1 hp1, hcp, joinComma_eq_tailJoin]

theorem checkedPairs_zip_map (f : String → Bool) (items : List String) :
    checkedPairs (items.zip (items.map f)) = items.filter f := by
  induction items with
  | nil => rfl
  | cons i rest ih =>
    rw [List.map_cons, List.zip_cons_cons]
    rw [show checkedPairs ((i, f i) :: rest.zip (rest.map f)) =
          (if f i then [i] else []) ++ checkedPairs (rest.zip (rest.map f)) from by
      cases hf : f i <;> simp [checkedPairs, List.filterMap_cons, hf]]
    rw [ih, List.filter_cons]
    cases hf : f i <;> simp [hf]

/-! ## Claims -/

/-! Reduction lemmas for `navigate` on a live recordset with a
non-negative edited row, one per toolbar action. -/

theorem navigate_first_eq (r : Recordset) (h : ¬r.edited_field_row < 0) :
    navigate "first" (some r) =
      (some { r with edited_field_row := 0 },
       [RsetEvent.setEditedField 0 r.edited_field_column] ++ hookEvents r ++
         [RsetEvent.displayRecord]) := by
  simp [navigate, h]

theorem navigate_back_eq (r : Recordset) (h : ¬r.edited_field_row < 0) :
    navigate "back" (some r) =
      (some { r with edited_field_row := max (r.edited_field_row - 1) 0 },
       [RsetEvent.setEditedField (max (r.edited_field_row - 1) 0)
          r.edited_field_column] ++ hookEvents r ++ [RsetEvent.displayRecord]) := by
  rcases lt_or_le (r.edited_field_row - 1) 0 with hc | hc
  · rw [max_eq_right (le_of_lt hc)]
    simp [navigate, h, hc]
  · rw [max_eq_left hc]
    simp [navigate, h, not_lt.mpr hc]

theorem navigate_next_eq (r : Recordset) (h : ¬r.edited_field_row < 0) :
    navigate "next" (some r) =
      (some { r with edited_field_row := min (r.edited_field_row + 1) (r.count - 1) },
       [RsetEvent.setEditedField (min (r.edited_field_row + 1) (r.count - 1))
          r.edited_field_column] ++ hookEvents r ++ [RsetEvent.displayRecord]) := by
  rcases le_or_lt r.count (r.edited_field_row + 1) with hc | hc
  · rw [min_eq_right (by omega)]
    simp [navigate, h, hc]
  · rw [min_eq_left (by omega)]
    simp [navigate, h, not_le.mpr hc]

theorem navigate_last_eq (r : Recordset) (h : ¬r.edited_field_row < 0) :
    navigate "last" (some r) =
      (some { r with edited_field_row := r.count - 1 },
       [RsetEvent.setEditedField (r.count - 1) r.edited_field_column] ++
         hookEvents r ++ [RsetEvent.displayRecord]) := by
  simp [navigate, h]

/-- C2: `parse_enum_definition` takes the substring of the full type string
between the first `(` and the last `)`, splits it into `'`-quote-delimited
tokens, and strips the surrounding quotes from each token, so commas inside
quoted values are not treated as separators: for every value list `vs`
whose values contain no quote character,
`parse_enum_definition (enumLiteral vs) = vs` — in particular
`parse_enum_definition "enum('a,b','c')" = ["a,b", "c"]` — and when the
parentheses are absent or ill-ordered it yields the empty list. -/
theorem C2_parse_enum (vs : List String) (s : String)
    (hq : ∀ v ∈ vs, '\'' ∉ v.data)
    (hbad : strFind s '(' = none ∨ strRfind s ')' = none ∨
      ∀ b e, strFind s '(' = some b → strRfind s ')' = some e → e ≤ b) :
    parse_enum_definition (enumLiteral vs) = vs ∧
    parse_enum_definition "enum('a,b','c')" = ["a,b", "c"] ∧
    parse_enum_definition s = [] :=
  ⟨parse_enumLiteral vs hq, by decide, parse_enum_definition_eq_nil s hbad⟩

/-- Witness for C2 at `vs = ["a,b", "c"]` — whose literal is
`enum('a,b','c')` — and the parenthesis-free string `"xyz"`. -/
theorem C2_parse_enum_witness :
    parse_enum_definition (enumLiteral ["a,b", "c"]) = ["a,b", "c"] ∧
    parse_enum_definition "enum('a,b','c')" = ["a,b", "c"] ∧
    parse_enum_definition "xyz" = [] :=
  C2_parse_enum ["a,b", "c"] "xyz" (by decide) (Or.inl (by decide))

/-- C6: for a SetFieldView whose item list contains the labels `x` and `y`
(non-empty, comma-free), calling `set_value "x,y"` and then recomputing the
value via the change handler produces a string whose split-by-comma set
equals `{x, y}`, regardless of the internal row order of the checklist;
the recomputed value joins the checked items' labels with commas in list
order. -/
theorem C6_set_value_roundtrip (items : List String) (x y : String)
    (hx : x ∈ items) (hy : y ∈ items) (hxe : x ≠ "") (hye : y ≠ "")
    (hxc : ',' ∉ x.data) (hyc : ',' ∉ y.data) :
    (split_token_list (SetFieldView.changed items
        (SetFieldView.set_value items (x ++ "," ++ y)))).toFinset = {x, y} ∧
    SetFieldView.changed items (SetFieldView.set_value items (x ++ "," ++ y)) =
      joinComma (checkedLabels items
        (SetFieldView.set_value items (x ++ "," ++ y))) := by
  have hsplit : split_token_list (x ++ "," ++ y) = [x, y] := by
    unfold split_token_list
    rw [show (x ++ "," ++ y).data = x.data ++ ',' :: y.data from by
      simp [String.data_append]]
    rw [splitCommaAux_append x.data [] y.data hxc]
    rw [splitCommaAux_no_comma y.data [] hyc]
    simp
  have hsv : SetFieldView.set_value items (x ++ "," ++ y) =
      items.map (fun it => [x, y].contains it) := by
    unfold SetFieldView.set_value
    rw [hsplit]
  have hcp := checkedPairs_zip_map (fun it => [x, y].contains it) items
  have hmem2 : ∀ z ∈ items.filter (fun it => [x, y].contains it),
      z = x ∨ z = y := by
    intro z hz
    have hfz := (List.mem_filter.mp hz).2
    simpa [List.contains] using hfz
  have hfx : x ∈ items.filter (fun it => [x, y].contains it) :=
    List.mem_filter.mpr ⟨hx, by simp [List.contains]⟩
  have hfy : y ∈ items.filter (fun it => [x, y].contains it) :=
    List.mem_filter.mpr ⟨hy, by simp [List.contains]⟩
  have hne : ∀ z ∈ items.filter (fun it => [x, y].contains it), z ≠ "" := by
    intro z hz
    rcases hmem2 z hz with rfl | rfl
    exacts [hxe, hye]
  have hnc : ∀ z ∈ items.filter (fun it => [x, y].contains it),
      ',' ∉ z.data := by
    intro z hz
    rcases hmem2 z hz with rfl | rfl
    exacts [hxc, hyc]
  have hchanged : SetFieldView.changed items
      (items.map (fun it => [x, y].contains it)) =
      joinComma (items.filter (fun it => [x, y].contains it)) := by
    unfold SetFieldView.changed
    rw [changed_eq_joinComma _ (by rw [hcp]; exact hne), hcp]
  refine ⟨?_, ?_⟩
  · rw [hsv, hchanged,
      split_joinComma _ (List.ne_nil_of_mem hfx) hnc]
    ext z
    simp only [List.mem_toFinset, Finset.mem_insert, Finset.mem_singleton]
    constructor
    · exact hmem2 z
    · rintro (rfl | rfl)
      exacts [hfx, hfy]
  · rw [hsv, hchanged]
    unfold checkedLabels
    rw [hcp]

/-- Witness for C6 with items `["y", "x", "z"]`, `x = "x"`, `y = "y"` (the
checklist order differs from the value order). -/
theorem C6_set_value_roundtrip_witness :
    (split_token_list (SetFieldView.changed ["y", "x", "z"]
        (SetFieldView.set_value ["y", "x", "z"] ("x" ++ "," ++ "y")))).toFinset =
      {"x", "y"} ∧
    SetFieldView.changed ["y", "x", "z"]
        (SetFieldView.set_value ["y", "x", "z"] ("x" ++ "," ++ "y")) =
      joinComma (checkedLabels ["y", "x", "z"]
        (SetFieldView.set_value ["y", "x", "z"] ("x" ++ "," ++ "y"))) :=
  C6_set_value_roundtrip ["y", "x", "z"] "x" "y" (by decide) (by decide)
    (by decide) (by decide) (by decide) (by decide)

/-- C3: for every live recordset whose edited row index is non-negative,
the toolbar navigation actions update the edited row as: `first` sets it to
0; `back` sets it to `max(row-1, 0)`; `next` sets it to
`min(row+1, rowCount-1)`; `last` sets it to `rowCount-1`; the edited column
is preserved (the record update touches only the row) and each action is
followed by a redisplay (the event list ends with `displayRecord`).
Consequently `back` at row 0 stays at row 0, `next` at the last row stays
at the last row, and `first` and `last` are idempotent on the recordset
state. -/
theorem C3_navigation (rset : Recordset) (h : 0 ≤ rset.edited_field_row) :
    (navigate "first" (some rset) =
      (some { rset with edited_field_row := 0 },
       [RsetEvent.setEditedField 0 rset.edited_field_column] ++ hookEvents rset ++
         [RsetEvent.displayRecord])) ∧
    (navigate "back" (some rset) =
      (some { rset with edited_field_row := max (rset.edited_field_row - 1) 0 },
       [RsetEvent.setEditedField (max (rset.edited_field_row - 1) 0)
          rset.edited_field_column] ++ hookEvents rset ++
         [RsetEvent.displayRecord])) ∧
    (navigate "next" (some rset) =
      (some { rset with
                edited_field_row := min (rset.edited_field_row + 1) (rset.count - 1) },
       [RsetEvent.setEditedField (min (rset.edited_field_row + 1) (rset.count - 1))
          rset.edited_field_column] ++ hookEvents rset ++
         [RsetEvent.displayRecord])) ∧
    (navigate "last" (some rset) =
      (some { rset with edited_field_row := rset.count - 1 },
       [RsetEvent.setEditedField (rset.count - 1) rset.edited_field_column] ++
         hookEvents rset ++ [RsetEvent.displayRecord])) ∧
    (rset.edited_field_row = 0 → (navigate "back" (some rset)).1 = some rset) ∧
    (rset.edited_field_row = rset.count - 1 →
      (navigate "next" (some rset)).1 = some rset) ∧
    ((navigate "first" (navigate "first" (some rset)).1).1 =
      (navigate "first" (some rset)).1) ∧
    ((navigate "last" (navigate "last" (some rset)).1).1 =
      (navigate "last" (some rset)).1) := by
  have h' : ¬rset.edited_field_row < 0 := by omega
  refine ⟨navigate_first_eq rset h', navigate_back_eq rset h',
    navigate_next_eq rset h', navigate_last_eq rset h', ?_, ?_, ?_, ?_⟩
  · intro h0
    rw [navigate_back_eq rset h']
    have : max (rset.edited_field_row - 1) 0 = rset.edited_field_row := by
      rw [max_eq_right (by omega)]; omega
    rw [this]
  · intro hlast
    rw [navigate_next_eq rset h']
    have : min (rset.edited_field_row + 1) (rset.count - 1) =
        rset.edited_field_row := by
      rw [min_eq_right (by omega)]; omega
    rw [this]
  · rw [navigate_first_eq rset h']
    rw [navigate_first_eq { rset with edited_field_row := 0 } (by simp)]
  · rw [navigate_last_eq rset h']
    by_cases hc : ({ rset with edited_field_row := rset.count - 1 } :
        Recordset).edited_field_row < 0
    · simp [navigate, hc]
    · rw [navigate_last_eq _ hc]

/-- Witness for C3 on a 3-row recordset at row 1 with an update hook. -/
theorem C3_navigation_witness :
    navigate "next" (some ⟨3, 1, 2, true⟩) =
      (some ⟨3, 2, 2, true⟩,
       [RsetEvent.setEditedField 2 2, RsetEvent.updateEditedField,
        RsetEvent.displayRecord]) ∧
    navigate "back" (some ⟨3, 1, 2, true⟩) =
      (some ⟨3, 0, 2, true⟩,
       [RsetEvent.setEditedField 0 2, RsetEvent.updateEditedField,
        RsetEvent.displayRecord]) := by
  have h := C3_navigation ⟨3, 1, 2, true⟩ (by decide)
  constructor
  · rw [h.2.2.1]; rfl
  · rw [h.2.1]; rfl

/-- C4: if the weak recordset reference has expired (lock yields null),
then `navigate`, `update_value`, `open_field_editor`, and `display_record`
each return without raising and without modifying any state: no recordset
mutation, no collaborator event, no display-state output. -/
theorem C4_expired_weak_ref_noop (name : String) (column : Int) (value : String) :
    navigate name none = (none, []) ∧
    update_value column value none = (none, []) ∧
    open_field_editor column none = (none, []) ∧
    display_record none = none :=
  ⟨rfl, rfl, rfl, rfl⟩

/-- C10: if the live recordset's edited row index is negative, `navigate`
returns immediately for every toolbar action — including `first`, `last`
and `delete` — leaving the recordset unmodified and emitting no event (in
particular no redisplay). -/
theorem C10_negative_row_navigate_noop (name : String) (rset : Recordset)
    (h : rset.edited_field_row < 0) :
    navigate name (some rset) = (some rset, []) := by
  simp [navigate, h]

/-- Witness for C10 at the `delete` action on a recordset with edited row
`-1`. -/
theorem C10_negative_row_navigate_noop_witness :
    navigate "delete" (some ⟨3, -1, 2, true⟩) = (some ⟨3, -1, 2, true⟩, []) :=
  C10_negative_row_navigate_noop "delete" ⟨3, -1, 2, true⟩ (by decide)

/-- C9: `format_label` appends a colon to the column name and, when the
leading character is an ASCII letter, capitalizes it, leaving the rest
unchanged; `format_label "name" = "Name:"`; a non-alphabetic leading
character is left unmodified except for the appended colon. -/
theorem C9_format_label (s : String) (c : Char) (rest : List Char)
    (hs : s.data = c :: rest) :
    format_label "name" = "Name:" ∧
    (g_ascii_isalpha c = false → format_label s = s ++ ":") ∧
    (g_ascii_isalpha c = true →
      format_label s = String.mk (g_ascii_toupper c :: rest) ++ ":") := by
  refine ⟨rfl, ?_, ?_⟩
  · intro halpha
    apply strext
    simp [format_label, hs, halpha, String.data_append]
  · intro halpha
    apply strext
    simp [format_label, hs, halpha, String.data_append]

/-- Witness for C9 at `s = "name"` (alphabetic head) and the two
conclusions it yields there. -/
theorem C9_format_label_witness :
    format_label "name" = "Name:" ∧
    format_label "name" = String.mk (g_ascii_toupper 'n' :: ['a', 'm', 'e']) ++ ":" := by
  have h := C9_format_label "name" 'n' ['a', 'm', 'e'] (by decide)
  exact ⟨h.1, h.2.2 (by decide)⟩

/-- C7: `init_for_resultset`, when the bound recordset's edited row index
is negative and its row count is at least one, sets the edited field to
row 0, column 0 (and invokes the recordset's update-notification hook when
present) before building the field views (one per column via
`FieldView::create`). -/
theorem C7_init_selects_row_zero (rset : Recordset) (fis : List FieldInfo)
    (oracle : FieldInfo → String)
    (h1 : rset.edited_field_row < 0) (h2 : 0 < rset.count) :
    init_for_resultset (some rset) fis oracle =
      (some { rset with edited_field_row := 0, edited_field_column := 0 },
       [RsetEvent.setEditedField 0 0] ++ hookEvents rset,
       fis.map (fun fi => FieldView.create fi (full_type_for oracle fi))) := by
  simp [init_for_resultset, h1, h2]

/-- Witness for C7 on a 3-row recordset with a hook and one VARCHAR column. -/
theorem C7_init_selects_row_zero_witness :
    init_for_resultset (some ⟨3, -1, 5, true⟩) [⟨"a", "VARCHAR", 20, "", ""⟩]
        (fun _ => "") =
      (some ⟨3, 0, 0, true⟩,
       [RsetEvent.setEditedField 0 0, RsetEvent.updateEditedField],
       [FieldView.stringField "A:" false (some 200)]) := by
  have h := C7_init_selects_row_zero ⟨3, -1, 5, true⟩ [⟨"a", "VARCHAR", 20, "", ""⟩]
    (fun _ => "") (by decide) (by decide)
  rw [h]
  rfl

/-- C5: `get_full_column_type` returns the empty string without issuing
any query when the server version is below 5.5, and returns the empty
string (after logging) when the driver raises any exception; an ENUM or
SET column whose full type string is empty is then rendered with the
default single-line text-entry fallback (`FieldView::create` never fails). -/
theorem C5_full_type_degrades (major minor : Int) (driver : DriverOutcome)
    (e : String) (f : FieldInfo)
    (hv : major < 5 ∨ (major = 5 ∧ minor < 5))
    (ht : f.type = "ENUM" ∨ f.type = "SET") :
    get_full_column_type major minor driver = ("", false) ∧
    (∀ mj mn : Int, (get_full_column_type mj mn (.error e)).1 = "") ∧
    FieldView.create f "" =
      StringFieldView.make (format_label f.field) f.display_size := by
  refine ⟨?_, ?_, ?_⟩
  · have : is_supported_mysql_version_at_least major minor 5 5 = false := by
      simp only [is_supported_mysql_version_at_least, Bool.or_eq_false_iff,
        decide_eq_false_iff_not, Bool.and_eq_false_iff]
      omega
    simp [get_full_column_type, this]
  · intro mj mn
    by_cases hs : is_supported_mysql_version_at_least mj mn 5 5 <;>
      simp [get_full_column_type, hs]
  · rcases ht with h | h <;>
      simp [FieldView.create, h, show "".isEmpty = true from rfl]

/-- C1: for every column FieldInfo, `FieldView::create` returns exactly one
variant chosen by the priority rules: VARCHAR with display size > 40 yields
a multi-line text box (given the larger size 200 instead of 60 when display
size > 1000); VARCHAR otherwise yields a single-line text entry sized
proportionally to display size (`display_size * 10`) with minimum width
floor 60; TEXT yields a multi-line text box; BLOB yields the blob
placeholder; ENUM with a non-empty full type string yields a single-select
dropdown populated with the parsed value list; SET with a non-empty full
type string yields a checklist populated with the parsed value list; every
other type yields a single-line text entry. -/
theorem C1_dispatch (f : FieldInfo) (ft : String) :
    (f.type = "VARCHAR" → f.display_size > 40 →
      FieldView.create f ft =
        .textField (format_label f.field)
          (if f.display_size > 1000 then 200 else 60)) ∧
    (f.type = "VARCHAR" → f.display_size ≤ 40 →
      FieldView.create f ft =
        .stringField (format_label f.field) false
          (some (max (f.display_size * 10) 60))) ∧
    (f.type = "TEXT" →
      FieldView.create f ft = .textField (format_label f.field) 60) ∧
    (f.type = "BLOB" →
      FieldView.create f ft = .blobField (format_label f.field)) ∧
    (f.type = "ENUM" → ft ≠ "" →
      FieldView.create f ft =
        .selectorField (format_label f.field) (parse_enum_definition ft)) ∧
    (f.type = "SET" → ft ≠ "" →
      FieldView.create f ft =
        .setField (format_label f.field) (parse_enum_definition ft)) ∧
    (f.type ∉ (["VARCHAR", "TEXT", "BLOB", "ENUM", "SET"] : List String) →
      FieldView.create f ft =
        StringFieldView.make (format_label f.field) f.display_size) := by
  refine ⟨?_, ?_, ?_, ?_, ?_, ?_, ?_⟩
  · intro h1 h2
    simp [FieldView.create, h1, h2]
  · intro h1 h2
    have h3 : ¬f.display_size > 40 := by omega
    have h4 : ¬f.display_size > 64 := by omega
    simp [FieldView.create, StringFieldView.make, h1, h3, h4]
  · intro h1
    simp [FieldView.create, h1]
  · intro h1
    simp [FieldView.create, h1]
  · intro h1 h2
    simp [FieldView.create, h1, not_isEmpty_of_ne h2]
  · intro h1 h2
    simp [FieldView.create, h1, not_isEmpty_of_ne h2]
  · intro h1
    simp only [List.mem_cons, List.not_mem_nil, or_false, not_or] at h1
    obtain ⟨h2, h3, h4, h5, h6⟩ := h1
    simp [FieldView.create, h2, h3, h4, h5, h6]

/-- Witness for C1: one concrete column per dispatch rule. -/
theorem C1_dispatch_witness :
    FieldView.create ⟨"name", "VARCHAR", 200, "", ""⟩ "" = .textField "Name:" 60 ∧
    FieldView.create ⟨"name", "VARCHAR", 2000, "", ""⟩ "" = .textField "Name:" 200 ∧
    FieldView.create ⟨"name", "VARCHAR", 10, "", ""⟩ "" =
      .stringField "Name:" false (some 100) ∧
    FieldView.create ⟨"note", "TEXT", 0, "", ""⟩ "" = .textField "Note:" 60 ∧
    FieldView.create ⟨"pic", "BLOB", 0, "", ""⟩ "" = .blobField "Pic:" ∧
    FieldView.create ⟨"kind", "ENUM", 4, "s", "t"⟩ "enum('a','b','c')" =
      .selectorField "Kind:" ["a", "b", "c"] ∧
    FieldView.create ⟨"opts", "SET", 4, "s", "t"⟩ "set('x','y')" =
      .setField "Opts:" ["x", "y"] ∧
    FieldView.create ⟨"num", "INT", 11, "", ""⟩ "" =
      .stringField "Num:" false (some 110) := by
  refine ⟨?_, ?_, ?_, ?_, ?_, ?_, ?_, ?_⟩
  · rw [(C1_dispatch ⟨"name", "VARCHAR", 200, "", ""⟩ "").1 rfl (by decide)]; rfl
  · rw [(C1_dispatch ⟨"name", "VARCHAR", 2000, "", ""⟩ "").1 rfl (by decide)]; rfl
  · rw [(C1_dispatch ⟨"name", "VARCHAR", 10, "", ""⟩ "").2.1 rfl (by decide)]; rfl
  · exact (C1_dispatch ⟨"note", "TEXT", 0, "", ""⟩ "").2.2.1 rfl
  · exact (C1_dispatch ⟨"pic", "BLOB", 0, "", ""⟩ "").2.2.2.1 rfl
  · rw [(C1_dispatch ⟨"kind", "ENUM", 4, "s", "t"⟩ "enum('a','b','c')").2.2.2.2.1 rfl
      (by decide)]
    rfl
  · rw [(C1_dispatch ⟨"opts", "SET", 4, "s", "t"⟩ "set('x','y')").2.2.2.2.2.1 rfl
      (by decide)]
    rfl
  · rw [(C1_dispatch ⟨"num", "INT", 11, "", ""⟩ "").2.2.2.2.2.2 (by decide)]; rfl

/-- C8 counterexample: the fallback single-line entry built for an INT
column with display size 100 is not the multi-line text-box variant and is
not built from a VARCHAR column, yet its `expands()` is true — refuting
"expands() is false for every variant other than the multi-line text box,
except that a VARCHAR single-line variant may expand". -/
theorem C8_expands_counterexample :
    FieldView.create ⟨"n", "INT", 100, "", ""⟩ "" = .stringField "N:" true none ∧
    (FieldView.create ⟨"n", "INT", 100, "", ""⟩ "").expands = true := by
  exact ⟨by decide, by decide⟩

/-- C8 (amended): `expands()` is true for the multi-line text-box variant
and false for the selector, checklist, and blob variants; the single-line
entry variant expands exactly when its max length exceeds 64, which among
the outputs of `FieldView::create` can happen only through the fallback for
non-VARCHAR types: a VARCHAR single-line entry has display size ≤ 40 and
never expands, while a non-VARCHAR fallback entry with display size > 64
does expand. -/
theorem C8_expands_amended (f : FieldInfo) (ft l : String)
    (items : List String) (e : Bool) (w : Option Int) (ht : Int) :
    FieldView.expands (.textField l ht) = true ∧
    FieldView.expands (.selectorField l items) = false ∧
    FieldView.expands (.setField l items) = false ∧
    FieldView.expands (.blobField l) = false ∧
    FieldView.expands (.stringField l e w) = e ∧
    (StringFieldView.make l f.display_size).expands =
      decide (f.display_size > 64) ∧
    (f.type = "VARCHAR" → f.display_size ≤ 40 →
      (FieldView.create f ft).expands = false) ∧
    (f.type ∉ (["VARCHAR", "TEXT", "BLOB", "ENUM", "SET"] : List String) →
      f.display_size > 64 → (FieldView.create f ft).expands = true) := by
  refine ⟨rfl, rfl, rfl, rfl, rfl, ?_, ?_, ?_⟩
  · by_cases h : f.display_size > 64 <;>
      simp [StringFieldView.make, FieldView.expands, h]
  · intro h1 h2
    have h3 : ¬f.display_size > 40 := by omega
    have h4 : ¬f.display_size > 64 := by omega
    simp [FieldView.create, StringFieldView.make, FieldView.expands, h1, h3, h4]
  · intro h1 h2
    simp only [List.mem_cons, List.not_mem_nil, or_false, not_or] at h1
    obtain ⟨h2', h3, h4, h5, h6⟩ := h1
    simp [FieldView.create, StringFieldView.make, FieldView.expands,
      h2, h2', h3, h4, h5, h6]

/-- Witness for C8 (amended) on an INT column with display size 100. -/
theorem C8_expands_amended_witness :
    (StringFieldView.make "N:" 100).expands = decide ((100 : Int) > 64) ∧
    (FieldView.create ⟨"v", "VARCHAR", 30, "", ""⟩ "").expands = false ∧
    (FieldView.create ⟨"n", "INT", 100, "", ""⟩ "").expands = true := by
  have h := C8_expands_amended ⟨"n", "INT", 100, "", ""⟩ "" "N:" [] false none 60
  have h' := C8_expands_amended ⟨"v", "VARCHAR", 30, "", ""⟩ "" "N:" [] false none 60
  exact ⟨h.2.2.2.2.2.1, h'.2.2.2.2.2.2.1 rfl (by decide),
    h.2.2.2.2.2.2.2 (by decide) (by decide)⟩

/-- Witness for C5 at version 5.0, a driver exception, and an ENUM column. -/
theorem C5_full_type_degrades_witness :
    get_full_column_type 5 0 (.ok (some "enum('a')")) = ("", false) ∧
    (get_full_column_type 5 5 (.error "boom")).1 = "" ∧
    FieldView.create ⟨"kind", "ENUM", 4, "s", "t"⟩ "" =
      StringFieldView.make "Kind:" 4 := by
  have h := C5_full_type_degrades 5 0 (.ok (some "enum('a')")) "boom"
    ⟨"kind", "ENUM", 4, "s", "t"⟩ (by omega) (by simp)
  exact ⟨h.1, h.2.1 5 5, h.2.2⟩

end ResultFormView
